import Mathlib

/-!
Shallow embedding of `fractal_maker.py` (escape-time engine `mandelbrot`,
`julia_set`, and the rasterizing entry point `plotter`).

Modelling conventions:
* numpy complex values are modelled as pairs of rationals `Qc = ℚ × ℚ`
  (the grid samples and all orbit values are exact rationals, so the test
  `np.abs(z) > 2` is modelled by the equivalent exact test `absSq z > 4`);
* the smoothing expression `i - np.log2(max(1, np.log2(i if i > 0 else 1)))`
  is modelled over the real numbers with `Real.logb 2`, and numpy's cast of
  that float into the `int`-typed `div_time` array is modelled by truncation
  toward zero (`npToInt`);
* each numpy array op in the loop body is elementwise, so the whole-array
  state is modelled as functions from (row, column) indices.
-/

namespace FractalMaker

/-- A complex value, as a pair (real part, imaginary part) of rationals. -/
abbrev Qc : Type := ℚ × ℚ

/-- `z ** 2 + c` for complex `z`, `c` (the loop body update `z[m] = z[m] ** 2 + c[m]`). -/
def sqAdd (z c : Qc) : Qc :=
  (z.1 * z.1 - z.2 * z.2 + c.1, 2 * z.1 * z.2 + c.2)

/-- Squared modulus; `np.abs(z) > 2` is equivalent to `absSq z > 4`. -/
def absSq (z : Qc) : ℚ :=
  z.1 * z.1 + z.2 * z.2

/-- `np.linspace(a, b, n)` (endpoint included), sample number `k`.
For `n = 1` numpy returns the single sample `a`. -/
def linspace (a b : ℚ) (n k : ℕ) : ℚ :=
  if n ≤ 1 then a else a + (k : ℚ) * (b - a) / ((n : ℚ) - 1)

/-- `x_width = 1.5` of the source. -/
def x_width : ℚ := 3 / 2

/-- `y_height = 1.5 * height / width` of the source. -/
def y_height (height width : ℕ) : ℚ := 3 / 2 * (height : ℚ) / (width : ℚ)

/-- `x_from = x - x_width / zoom`. -/
def x_from (x zoom : ℚ) : ℚ := x - x_width / zoom

/-- `x_to = x + x_width / zoom`. -/
def x_to (x zoom : ℚ) : ℚ := x + x_width / zoom

/-- `y_from = y - y_height / zoom`. -/
def y_from (height width : ℕ) (y zoom : ℚ) : ℚ := y - y_height height width / zoom

/-- `y_to = y + y_height / zoom`. -/
def y_to (height width : ℕ) (y zoom : ℚ) : ℚ := y + y_height height width / zoom

/-- The grid of complex sample points built by both engines:
column sample `linspace x_from x_to width` plus `i` times row sample
`linspace y_from y_to height` (Mandelbrot's `c` array, Julia's initial `z`). -/
def sampleGrid (height width : ℕ) (x y zoom : ℚ) : ℕ → ℕ → Qc :=
  fun r j =>
    (linspace (x_from x zoom) (x_to x zoom) width j,
     linspace (y_from height width y zoom) (y_to height width y zoom) height r)

/-- The float value written into `div_time` at loop index `i`:
`i - np.log2(max(1, np.log2(i if i > 0 else 1)))`, over the reals. -/
noncomputable def smooth (i : ℕ) : ℝ :=
  (i : ℝ) - Real.logb 2 (max 1 (Real.logb 2 (if 0 < i then (i : ℝ) else 1)))

/-- numpy's cast of a float into an `int` array entry: truncation toward zero. -/
noncomputable def npToInt (r : ℝ) : ℤ :=
  if 0 ≤ r then ⌊r⌋ else ⌈r⌉

/-- The integer actually stored in the `div_time` array at loop index `i`. -/
noncomputable def smoothDiv (i : ℕ) : ℤ :=
  npToInt (smooth i)

/-- The per-iteration state of either engine: the orbit array `z`, the
`div_time` array, and the active mask `m`, all indexed by (row, column). -/
structure EState where
  z : ℕ → ℕ → Qc
  divTime : ℕ → ℕ → ℤ
  m : ℕ → ℕ → Bool

/-- One iteration of the `mandelbrot` loop body (loop index `i`):
`z[m] = z[m] ** 2 + c[m]`;
`diverged = np.greater(np.abs(z), 2, out=False-array, where=m)`;
`div_time[diverged] = smooth i`;
`m[np.abs(z) > 2] = False`. -/
noncomputable def mandelbrotStep (c : ℕ → ℕ → Qc) (i : ℕ) (s : EState) : EState :=
  let z2 : ℕ → ℕ → Qc := fun r j => if s.m r j then sqAdd (s.z r j) (c r j) else s.z r j
  { z := z2
    divTime := fun r j => if s.m r j ∧ 4 < absSq (z2 r j) then smoothDiv i else s.divTime r j
    m := fun r j => if 4 < absSq (z2 r j) then false else s.m r j }

/-- One iteration of the `julia_set` loop body (loop index `i`):
`z[m] = z[m] ** 2 + c[m]`;
`m[np.abs(z) > 2] = False`;
`div_time[m] = smooth i` (note: written under the post-deactivation mask). -/
noncomputable def juliaStep (c : Qc) (i : ℕ) (s : EState) : EState :=
  let z2 : ℕ → ℕ → Qc := fun r j => if s.m r j then sqAdd (s.z r j) c else s.z r j
  let m2 : ℕ → ℕ → Bool := fun r j => if 4 < absSq (z2 r j) then false else s.m r j
  { z := z2
    divTime := fun r j => if m2 r j then smoothDiv i else s.divTime r j
    m := m2 }

/-- `for i in range(n): state = step i state` — apply loop indices `0, …, n-1`. -/
def runSteps (step : ℕ → EState → EState) : ℕ → EState → EState
  | 0, s => s
  | n + 1, s => step n (runSteps step n s)

/-- The state entering the loop: `z = 0`-array for Mandelbrot / the sample grid
for Julia (`z0`), `div_time = zeros(int)`, `m = full(True)`. -/
def initState (z0 : ℕ → ℕ → Qc) : EState :=
  { z := z0
    divTime := fun _ _ => 0
    m := fun _ _ => true }

/-- The whole `mandelbrot` loop: state after `max_iterations` iterations,
with `c` = sample grid and orbit started at `0`. -/
noncomputable def mandelbrotRun (height width : ℕ) (x y zoom : ℚ)
    (max_iterations : ℕ) : EState :=
  runSteps (mandelbrotStep (sampleGrid height width x y zoom)) max_iterations
    (initState fun _ _ => (0, 0))

/-- The whole `julia_set` loop: state after `max_iterations` iterations,
with fixed constant `c` and orbit started at the sample grid. -/
noncomputable def juliaRun (c : Qc) (height width : ℕ) (x y zoom : ℚ)
    (max_iterations : ℕ) : EState :=
  runSteps (juliaStep c) max_iterations (initState (sampleGrid height width x y zoom))

/-- The `div_time` array `mandelbrot` returns, as a height×width list of lists. -/
noncomputable def mandelbrot (height width : ℕ) (x y zoom : ℚ)
    (max_iterations : ℕ) : List (List ℤ) :=
  List.ofFn fun r : Fin height =>
    List.ofFn fun j : Fin width =>
      (mandelbrotRun height width x y zoom max_iterations).divTime r j

/-- The `div_time` array `julia_set` returns, as a height×width list of lists. -/
noncomputable def julia_set (c : Qc) (height width : ℕ) (x y zoom : ℚ)
    (max_iterations : ℕ) : List (List ℤ) :=
  List.ofFn fun r : Fin height =>
    List.ofFn fun j : Fin width =>
      (juliaRun c height width x y zoom max_iterations).divTime r j

/-- The error raised when `ax.imshow(array, cmap)` is given an unrecognized
colormap name (`UnknownColormap` in the spec's taxonomy). -/
inductive RenderError where
  | unknownColormap
deriving DecidableEq

/-- Everything `plotter` feeds into `imshow` / `savefig`, i.e. the data the
returned base64 payload is a function of: the computed field, the colormap,
and the fixed `savefig` options `format="png"`, `bbox_inches="tight"`.
Note `dpi` is absent: `fig.savefig` is called without it. -/
structure SavefigInput where
  field : List (List ℤ)
  cmap : String
  format : String
  bbox_inches : String
deriving DecidableEq

/-- `plotter(x, y, zoom, c, iterations, cmap, dpi)`.

Modelled from the spec: the colormap lookup itself happens inside the
plotting library's `ax.imshow(array, cmap)` call, whose registry of
recognized palette names is not part of `src/`; per the spec it is a
"fixed, enumerable palette lookup" that fails on an unknown name, so the
registry is taken here as an explicit list parameter.  Everything else is
translated from the source: the field is always
`mandelbrot(height=512, width=512, x, y, zoom, max_iterations=iterations)`;
the caller-supplied `c` and `dpi` are accepted but never used. -/
noncomputable def plotter (registry : List String) (x y zoom : ℚ) (c : Option Qc)
    (iterations : ℕ) (cmap : String) (dpi : ℕ) : Except RenderError SavefigInput :=
  if cmap ∈ registry then
    .ok { field := mandelbrot 512 512 x y zoom iterations
          cmap := cmap
          format := "png"
          bbox_inches := "tight" }
  else
    .error .unknownColormap

/-! ### Smoothing-value lemmas -/

lemma smooth_zero : smooth 0 = 0 := by
  simp [smooth, Real.logb_one]

lemma smooth_one : smooth 1 = 1 := by
  simp [smooth, Real.logb_one]

lemma smoothDiv_zero : smoothDiv 0 = 0 := by
  simp [smoothDiv, npToInt, smooth_zero]

lemma smoothDiv_one : smoothDiv 1 = 1 := by
  simp [smoothDiv, npToInt, smooth_one]

lemma logb_two_natCast_le (i : ℕ) (hi : 1 ≤ i) : Real.logb 2 (i : ℝ) ≤ (i : ℝ) := by
  have hipos : (0 : ℝ) < (i : ℝ) := by exact_mod_cast hi
  rw [Real.logb_le_iff_le_rpow one_lt_two hipos, Real.rpow_natCast]
  exact_mod_cast (Nat.lt_two_pow i).le

lemma smooth_le (i : ℕ) : smooth i ≤ (i : ℝ) := by
  have h : (0 : ℝ) ≤ Real.logb 2 (max 1 (Real.logb 2 (if 0 < i then (i : ℝ) else 1))) :=
    Real.logb_nonneg one_lt_two (le_max_left 1 _)
  unfold smooth
  linarith

lemma smooth_nonneg (i : ℕ) : 0 ≤ smooth i := by
  rcases Nat.eq_zero_or_pos i with h0 | h1
  · rw [h0, smooth_zero]
  · have hi : (1 : ℝ) ≤ (i : ℝ) := by exact_mod_cast h1
    have h1' : Real.logb 2 (i : ℝ) ≤ (i : ℝ) := logb_two_natCast_le i h1
    have h2 : max 1 (Real.logb 2 (i : ℝ)) ≤ (i : ℝ) := max_le hi h1'
    have h3 : Real.logb 2 (max 1 (Real.logb 2 (i : ℝ))) ≤ Real.logb 2 (i : ℝ) :=
      Real.logb_le_logb_of_le one_lt_two (lt_of_lt_of_le one_pos (le_max_left 1 _)) h2
    unfold smooth
    rw [if_pos h1]
    linarith

lemma smoothDiv_nonneg (i : ℕ) : 0 ≤ smoothDiv i := by
  rw [smoothDiv, npToInt, if_pos (smooth_nonneg i)]
  exact Int.le_floor.mpr (by exact_mod_cast smooth_nonneg i)

lemma smoothDiv_le (i : ℕ) : smoothDiv i ≤ (i : ℤ) := by
  rw [smoothDiv, npToInt, if_pos (smooth_nonneg i)]
  calc ⌊smooth i⌋ ≤ ⌊(i : ℝ)⌋ := Int.floor_le_floor (smooth_le i)
    _ = (i : ℤ) := by exact_mod_cast Int.floor_natCast i

/-! ### Engine-iteration lemmas -/

lemma runSteps_zero (step : ℕ → EState → EState) (s : EState) :
    runSteps step 0 s = s := rfl

lemma runSteps_succ (step : ℕ → EState → EState) (n : ℕ) (s : EState) :
    runSteps step (n + 1) s = step n (runSteps step n s) := rfl

lemma mandelbrotStep_z (c : ℕ → ℕ → Qc) (i : ℕ) (s : EState) (r j : ℕ) :
    (mandelbrotStep c i s).z r j =
      if s.m r j then sqAdd (s.z r j) (c r j) else s.z r j := rfl

lemma mandelbrotStep_divTime (c : ℕ → ℕ → Qc) (i : ℕ) (s : EState) (r j : ℕ) :
    (mandelbrotStep c i s).divTime r j =
      if s.m r j ∧ 4 < absSq ((mandelbrotStep c i s).z r j) then smoothDiv i
      else s.divTime r j := rfl

lemma mandelbrotStep_m (c : ℕ → ℕ → Qc) (i : ℕ) (s : EState) (r j : ℕ) :
    (mandelbrotStep c i s).m r j =
      if 4 < absSq ((mandelbrotStep c i s).z r j) then false else s.m r j := rfl

lemma juliaStep_z (c : Qc) (i : ℕ) (s : EState) (r j : ℕ) :
    (juliaStep c i s).z r j =
      if s.m r j then sqAdd (s.z r j) c else s.z r j := rfl

lemma juliaStep_m (c : Qc) (i : ℕ) (s : EState) (r j : ℕ) :
    (juliaStep c i s).m r j =
      if 4 < absSq ((juliaStep c i s).z r j) then false else s.m r j := rfl

lemma juliaStep_divTime (c : Qc) (i : ℕ) (s : EState) (r j : ℕ) :
    (juliaStep c i s).divTime r j =
      if (juliaStep c i s).m r j then smoothDiv i else s.divTime r j := rfl

lemma mandelbrotStep_frozen (c : ℕ → ℕ → Qc) (i : ℕ) (s : EState) (r j : ℕ)
    (h : s.m r j = false) :
    (mandelbrotStep c i s).z r j = s.z r j ∧
    (mandelbrotStep c i s).divTime r j = s.divTime r j ∧
    (mandelbrotStep c i s).m r j = false := by
  refine ⟨?_, ?_, ?_⟩ <;> simp [mandelbrotStep, h]

lemma juliaStep_frozen (c : Qc) (i : ℕ) (s : EState) (r j : ℕ)
    (h : s.m r j = false) :
    (juliaStep c i s).z r j = s.z r j ∧
    (juliaStep c i s).divTime r j = s.divTime r j ∧
    (juliaStep c i s).m r j = false := by
  refine ⟨?_, ?_, ?_⟩ <;> simp [juliaStep, h]

lemma mandelbrot_frozenRun (c : ℕ → ℕ → Qc) (s : EState) (r j k : ℕ)
    (h : (runSteps (mandelbrotStep c) k s).m r j = false) :
    ∀ n, k ≤ n →
      (runSteps (mandelbrotStep c) n s).divTime r j =
        (runSteps (mandelbrotStep c) k s).divTime r j ∧
      (runSteps (mandelbrotStep c) n s).m r j = false := by
  intro n hn
  induction n, hn using Nat.le_induction with
  | base => exact ⟨rfl, h⟩
  | succ n hn ih =>
    have hf := mandelbrotStep_frozen c n (runSteps (mandelbrotStep c) n s) r j ih.2
    exact ⟨hf.2.1.trans ih.1, hf.2.2⟩

lemma julia_frozenRun (c : Qc) (s : EState) (r j k : ℕ)
    (h : (runSteps (juliaStep c) k s).m r j = false) :
    ∀ n, k ≤ n →
      (runSteps (juliaStep c) n s).divTime r j =
        (runSteps (juliaStep c) k s).divTime r j ∧
      (runSteps (juliaStep c) n s).m r j = false := by
  intro n hn
  induction n, hn using Nat.le_induction with
  | base => exact ⟨rfl, h⟩
  | succ n hn ih =>
    have hf := juliaStep_frozen c n (runSteps (juliaStep c) n s) r j ih.2
    exact ⟨hf.2.1.trans ih.1, hf.2.2⟩

lemma mandelbrotRun_succ (height width : ℕ) (x y zoom : ℚ) (n : ℕ) :
    mandelbrotRun height width x y zoom (n + 1) =
      mandelbrotStep (sampleGrid height width x y zoom) n
        (mandelbrotRun height width x y zoom n) := rfl

lemma juliaRun_succ (c : Qc) (height width : ℕ) (x y zoom : ℚ) (n : ℕ) :
    juliaRun c height width x y zoom (n + 1) =
      juliaStep c n (juliaRun c height width x y zoom n) := rfl

lemma mandelbrotRun_frozen (height width : ℕ) (x y zoom : ℚ) (r j k : ℕ)
    (h : (mandelbrotRun height width x y zoom k).m r j = false) :
    ∀ n, k ≤ n →
      (mandelbrotRun height width x y zoom n).divTime r j =
        (mandelbrotRun height width x y zoom k).divTime r j ∧
      (mandelbrotRun height width x y zoom n).m r j = false :=
  mandelbrot_frozenRun _ _ r j k h

lemma juliaRun_frozen (c : Qc) (height width : ℕ) (x y zoom : ℚ) (r j k : ℕ)
    (h : (juliaRun c height width x y zoom k).m r j = false) :
    ∀ n, k ≤ n →
      (juliaRun c height width x y zoom n).divTime r j =
        (juliaRun c height width x y zoom k).divTime r j ∧
      (juliaRun c height width x y zoom n).m r j = false :=
  julia_frozenRun _ _ r j k h

/-- Every `div_time` entry of a Mandelbrot run of `n` iterations lies in `[0, n]`. -/
lemma mandelbrotRun_divTime_range (height width : ℕ) (x y zoom : ℚ) :
    ∀ n r j, 0 ≤ (mandelbrotRun height width x y zoom n).divTime r j ∧
      (mandelbrotRun height width x y zoom n).divTime r j ≤ (n : ℤ) := by
  intro n
  induction n with
  | zero => intro r j; exact ⟨le_rfl, le_rfl⟩
  | succ n ih =>
    intro r j
    have hcast : (n : ℤ) ≤ ((n + 1 : ℕ) : ℤ) := by exact_mod_cast Nat.le_succ n
    rw [mandelbrotRun_succ, mandelbrotStep_divTime]
    split
    · exact ⟨smoothDiv_nonneg n, (smoothDiv_le n).trans hcast⟩
    · exact ⟨(ih r j).1, (ih r j).2.trans hcast⟩

/-- Every `div_time` entry of a Julia run of `n` iterations lies in `[0, n]`. -/
lemma juliaRun_divTime_range (c : Qc) (height width : ℕ) (x y zoom : ℚ) :
    ∀ n r j, 0 ≤ (juliaRun c height width x y zoom n).divTime r j ∧
      (juliaRun c height width x y zoom n).divTime r j ≤ (n : ℤ) := by
  intro n
  induction n with
  | zero => intro r j; exact ⟨le_rfl, le_rfl⟩
  | succ n ih =>
    intro r j
    have hcast : (n : ℤ) ≤ ((n + 1 : ℕ) : ℤ) := by exact_mod_cast Nat.le_succ n
    rw [juliaRun_succ, juliaStep_divTime]
    split
    · exact ⟨smoothDiv_nonneg n, (smoothDiv_le n).trans hcast⟩
    · exact ⟨(ih r j).1, (ih r j).2.trans hcast⟩

lemma mandelbrotRun_zero (height width : ℕ) (x y zoom : ℚ) :
    mandelbrotRun height width x y zoom 0 = initState fun _ _ => (0, 0) := rfl

lemma juliaRun_zero (c : Qc) (height width : ℕ) (x y zoom : ℚ) :
    juliaRun c height width x y zoom 0 =
      initState (sampleGrid height width x y zoom) := rfl

/-- One Mandelbrot iteration at a cell that is active and stays bounded:
the orbit advances, `div_time` is untouched, the cell stays active. -/
lemma mandelbrotRun_step_stay (height width : ℕ) (x y zoom : ℚ) (k r j : ℕ)
    (zv cv : Qc) (dv : ℤ)
    (hz : (mandelbrotRun height width x y zoom k).z r j = zv)
    (hm : (mandelbrotRun height width x y zoom k).m r j = true)
    (hc : sampleGrid height width x y zoom r j = cv)
    (hle : absSq (sqAdd zv cv) ≤ 4)
    (hd : (mandelbrotRun height width x y zoom k).divTime r j = dv) :
    (mandelbrotRun height width x y zoom (k + 1)).z r j = sqAdd zv cv ∧
    (mandelbrotRun height width x y zoom (k + 1)).divTime r j = dv ∧
    (mandelbrotRun height width x y zoom (k + 1)).m r j = true := by
  have hz1 : (mandelbrotRun height width x y zoom (k + 1)).z r j = sqAdd zv cv := by
    rw [mandelbrotRun_succ, mandelbrotStep_z, hm, hz, hc]
    simp
  refine ⟨hz1, ?_, ?_⟩
  · rw [mandelbrotRun_succ, mandelbrotStep_divTime,
      show (mandelbrotStep (sampleGrid height width x y zoom) k
        (mandelbrotRun height width x y zoom k)).z r j = sqAdd zv cv from hz1,
      if_neg (fun hand => absurd hand.2 (not_lt.mpr hle))]
    exact hd
  · rw [mandelbrotRun_succ, mandelbrotStep_m,
      show (mandelbrotStep (sampleGrid height width x y zoom) k
        (mandelbrotRun height width x y zoom k)).z r j = sqAdd zv cv from hz1,
      if_neg (not_lt.mpr hle)]
    exact hm

/-- One Mandelbrot iteration at a cell that is active and escapes: the
orbit advances past the bound, `div_time` is written with the smoothed
value of this iteration, and the cell is deactivated. -/
lemma mandelbrotRun_step_escape (height width : ℕ) (x y zoom : ℚ) (k r j : ℕ)
    (zv cv : Qc)
    (hz : (mandelbrotRun height width x y zoom k).z r j = zv)
    (hm : (mandelbrotRun height width x y zoom k).m r j = true)
    (hc : sampleGrid height width x y zoom r j = cv)
    (hgt : 4 < absSq (sqAdd zv cv)) :
    (mandelbrotRun height width x y zoom (k + 1)).z r j = sqAdd zv cv ∧
    (mandelbrotRun height width x y zoom (k + 1)).divTime r j = smoothDiv k ∧
    (mandelbrotRun height width x y zoom (k + 1)).m r j = false := by
  have hz1 : (mandelbrotRun height width x y zoom (k + 1)).z r j = sqAdd zv cv := by
    rw [mandelbrotRun_succ, mandelbrotStep_z, hm, hz, hc]
    simp
  refine ⟨hz1, ?_, ?_⟩
  · rw [mandelbrotRun_succ, mandelbrotStep_divTime,
      show (mandelbrotStep (sampleGrid height width x y zoom) k
        (mandelbrotRun height width x y zoom k)).z r j = sqAdd zv cv from hz1,
      if_pos ⟨hm, hgt⟩]
  · rw [mandelbrotRun_succ, mandelbrotStep_m,
      show (mandelbrotStep (sampleGrid height width x y zoom) k
        (mandelbrotRun height width x y zoom k)).z r j = sqAdd zv cv from hz1,
      if_pos hgt]

/-- One Julia iteration at a cell that is active and stays bounded: the
orbit advances, the cell stays active, and — still being in the
post-deactivation mask — its `div_time` is overwritten with this
iteration's smoothed value. -/
lemma juliaRun_step_stay (c : Qc) (height width : ℕ) (x y zoom : ℚ) (k r j : ℕ)
    (zv : Qc)
    (hz : (juliaRun c height width x y zoom k).z r j = zv)
    (hm : (juliaRun c height width x y zoom k).m r j = true)
    (hle : absSq (sqAdd zv c) ≤ 4) :
    (juliaRun c height width x y zoom (k + 1)).z r j = sqAdd zv c ∧
    (juliaRun c height width x y zoom (k + 1)).divTime r j = smoothDiv k ∧
    (juliaRun c height width x y zoom (k + 1)).m r j = true := by
  have hz1 : (juliaRun c height width x y zoom (k + 1)).z r j = sqAdd zv c := by
    rw [juliaRun_succ, juliaStep_z, hm, hz]
    simp
  have hm1 : (juliaRun c height width x y zoom (k + 1)).m r j = true := by
    rw [juliaRun_succ, juliaStep_m,
      show (juliaStep c k (juliaRun c height width x y zoom k)).z r j = sqAdd zv c from hz1,
      if_neg (not_lt.mpr hle)]
    exact hm
  refine ⟨hz1, ?_, hm1⟩
  · rw [juliaRun_succ, juliaStep_divTime,
      show (juliaStep c k (juliaRun c height width x y zoom k)).m r j = true from hm1]
    simp

/-- One Julia iteration at a cell that is active and escapes: the orbit
advances past the bound, the cell is deactivated, and — being out of the
post-deactivation mask — its `div_time` keeps its previous value. -/
lemma juliaRun_step_escape (c : Qc) (height width : ℕ) (x y zoom : ℚ) (k r j : ℕ)
    (zv : Qc) (dv : ℤ)
    (hz : (juliaRun c height width x y zoom k).z r j = zv)
    (hm : (juliaRun c height width x y zoom k).m r j = true)
    (hgt : 4 < absSq (sqAdd zv c))
    (hd : (juliaRun c height width x y zoom k).divTime r j = dv) :
    (juliaRun c height width x y zoom (k + 1)).z r j = sqAdd zv c ∧
    (juliaRun c height width x y zoom (k + 1)).divTime r j = dv ∧
    (juliaRun c height width x y zoom (k + 1)).m r j = false := by
  have hz1 : (juliaRun c height width x y zoom (k + 1)).z r j = sqAdd zv c := by
    rw [juliaRun_succ, juliaStep_z, hm, hz]
    simp
  have hm1 : (juliaRun c height width x y zoom (k + 1)).m r j = false := by
    rw [juliaRun_succ, juliaStep_m,
      show (juliaStep c k (juliaRun c height width x y zoom k)).z r j = sqAdd zv c from hz1,
      if_pos hgt]
  refine ⟨hz1, ?_, hm1⟩
  · rw [juliaRun_succ, juliaStep_divTime,
      show (juliaStep c k (juliaRun c height width x y zoom k)).m r j = false from hm1,
      if_neg Bool.false_ne_true]
    exact hd

/-- At a cell whose sample value is the origin, the Mandelbrot orbit stays
at 0 forever: the cell stays active and its `div_time` is never written. -/
lemma mandelbrot_zero_cell (height width : ℕ) (x y zoom : ℚ) (r j : ℕ)
    (hc : sampleGrid height width x y zoom r j = (0, 0)) :
    ∀ k, (mandelbrotRun height width x y zoom k).z r j = (0, 0) ∧
      (mandelbrotRun height width x y zoom k).divTime r j = 0 ∧
      (mandelbrotRun height width x y zoom k).m r j = true := by
  intro k
  induction k with
  | zero => exact ⟨rfl, rfl, rfl⟩
  | succ k ih =>
    have h := mandelbrotRun_step_stay height width x y zoom k r j (0, 0) (0, 0) 0
      ih.1 ih.2.2 hc (by norm_num [absSq, sqAdd]) ih.2.1
    exact ⟨h.1.trans (by norm_num [sqAdd]), h.2.1, h.2.2⟩

/-- Concrete Mandelbrot run on the 1×1 grid whose sample point is c = 3/2:
the orbit is 0, 3/2, 15/4, …; it is still bounded after iteration 0 and
first exceeds magnitude 2 at iteration 1, where smoothDiv 1 is recorded,
and that record persists to the end of the 3-iteration run. -/
lemma mandelbrot_demo :
    (mandelbrotRun 1 1 3 (3 / 2) 1 1).m 0 0 = true ∧
    4 < absSq ((mandelbrotRun 1 1 3 (3 / 2) 1 2).z 0 0) ∧
    (mandelbrotRun 1 1 3 (3 / 2) 1 3).divTime 0 0 = smoothDiv 1 := by
  have hc : sampleGrid 1 1 3 (3 / 2) 1 0 0 = (3 / 2, 0) := by
    norm_num [sampleGrid, linspace, x_from, y_from, x_width, y_height]
  have h1 := mandelbrotRun_step_stay 1 1 3 (3 / 2) 1 0 0 0 (0, 0) (3 / 2, 0) 0
    rfl rfl hc (by norm_num [absSq, sqAdd]) rfl
  have h1z : (mandelbrotRun 1 1 3 (3 / 2) 1 1).z 0 0 = (3 / 2, 0) :=
    h1.1.trans (by norm_num [sqAdd])
  have h2 := mandelbrotRun_step_escape 1 1 3 (3 / 2) 1 1 0 0 (3 / 2, 0) (3 / 2, 0)
    h1z h1.2.2 hc (by norm_num [absSq, sqAdd])
  have h2z : (mandelbrotRun 1 1 3 (3 / 2) 1 2).z 0 0 = (15 / 4, 0) :=
    h2.1.trans (by norm_num [sqAdd])
  refine ⟨h1.2.2, ?_, ?_⟩
  · rw [h2z]
    norm_num [absSq]
  · exact (mandelbrotRun_frozen 1 1 3 (3 / 2) 1 0 0 2 h2.2.2 3 (by norm_num)).1.trans h2.2.1

/-- Concrete Julia run (c = 0) on the 1×1 grid whose sample point is 6/5:
the orbit is 6/5, 36/25, 1296/625, …; it is still bounded (and active)
after iteration 0, where smoothDiv 0 = 0 is recorded; it first exceeds
magnitude 2 at iteration 1, where nothing is recorded, so the record 0
persists to the end of the 3-iteration run. -/
lemma julia_demo :
    (juliaRun (0, 0) 1 1 (27 / 10) (3 / 2) 1 1).m 0 0 = true ∧
    4 < absSq ((juliaRun (0, 0) 1 1 (27 / 10) (3 / 2) 1 2).z 0 0) ∧
    (juliaRun (0, 0) 1 1 (27 / 10) (3 / 2) 1 1).divTime 0 0 = smoothDiv 0 ∧
    (juliaRun (0, 0) 1 1 (27 / 10) (3 / 2) 1 3).divTime 0 0 = 0 := by
  have hz0 : (juliaRun (0, 0) 1 1 (27 / 10) (3 / 2) 1 0).z 0 0 = (6 / 5, 0) := by
    rw [juliaRun_zero]
    norm_num [initState, sampleGrid, linspace, x_from, y_from, x_width, y_height]
  have h1 := juliaRun_step_stay (0, 0) 1 1 (27 / 10) (3 / 2) 1 0 0 0 (6 / 5, 0)
    hz0 rfl (by norm_num [absSq, sqAdd])
  have h1z : (juliaRun (0, 0) 1 1 (27 / 10) (3 / 2) 1 1).z 0 0 = (36 / 25, 0) :=
    h1.1.trans (by norm_num [sqAdd])
  have h2 := juliaRun_step_escape (0, 0) 1 1 (27 / 10) (3 / 2) 1 1 0 0 (36 / 25, 0)
    (smoothDiv 0) h1z h1.2.2 (by norm_num [absSq, sqAdd]) h1.2.1
  have h2z : (juliaRun (0, 0) 1 1 (27 / 10) (3 / 2) 1 2).z 0 0 = (1296 / 625, 0) :=
    h2.1.trans (by norm_num [sqAdd])
  refine ⟨h1.2.2, ?_, h1.2.1, ?_⟩
  · rw [h2z]
    norm_num [absSq]
  · exact ((juliaRun_frozen (0, 0) 1 1 (27 / 10) (3 / 2) 1 0 0 2 h2.2.2 3
      (by norm_num)).1.trans h2.2.1).trans smoothDiv_zero

set_option maxRecDepth 4000 in
/-- Inverting a successful `plotter` call: the payload is fully determined. -/
lemma plotter_ok_out (registry : List String) (x y zoom : ℚ) (c : Option Qc)
    (iterations : ℕ) (cmap : String) (dpi : ℕ) (out : SavefigInput)
    (h : plotter registry x y zoom c iterations cmap dpi = .ok out) :
    out = ⟨mandelbrot 512 512 x y zoom iterations, cmap, "png", "tight"⟩ := by
  unfold plotter at h
  by_cases hc : cmap ∈ registry
  · rw [if_pos hc] at h
    injection h with h'
    exact h'.symm
  · rw [if_neg hc] at h
    exact Except.noConfusion h

/-! ### Claim theorems -/

/-- Claim C4: the sampled viewport is centered on (x, y), its x-direction
half-width is exactly 1.5/zoom, its half-height is exactly
(1.5/zoom)·(height/width), and scaling the zoom by a positive factor k
narrows both half-extents by exactly the factor k. -/
theorem c4_viewport_centered_and_scales (height width : ℕ) (x y zoom : ℚ)
    (hz : 0 < zoom) (hw : 0 < width) :
    (x_from x zoom + x_to x zoom) / 2 = x ∧
    (y_from height width y zoom + y_to height width y zoom) / 2 = y ∧
    x_to x zoom - x = 3 / 2 / zoom ∧
    x - x_from x zoom = 3 / 2 / zoom ∧
    y_to height width y zoom - y = 3 / 2 / zoom * ((height : ℚ) / (width : ℚ)) ∧
    ∀ k : ℚ, 0 < k →
      x_to x (k * zoom) - x = (x_to x zoom - x) / k ∧
      y_to height width y (k * zoom) - y = (y_to height width y zoom - y) / k := by
  refine ⟨?_, ?_, ?_, ?_, ?_, fun k hk => ⟨?_, ?_⟩⟩ <;>
    simp only [x_from, x_to, y_from, y_to, x_width, y_height] <;> ring

/-- Witness for C4 at height = width = 1, x = y = 0, zoom = 1. -/
theorem c4_witness : x_to 0 1 - 0 = 3 / 2 / 1 :=
  (c4_viewport_centered_and_scales 1 1 0 0 1 (by norm_num) (by norm_num)).2.2.1

/-- Claim C5 (evaluating the code at the failing input): neither engine
performs any dimension validation; with `height = 0` both return an empty
divergence field instead of failing with an `InvalidDimension` error. -/
theorem c5_zero_height_returns_empty_field :
    mandelbrot 0 5 (-(1 / 2)) 0 1 100 = [] ∧
    julia_set (-(2 / 5), 3 / 5) 0 5 0 0 1 100 = [] := by
  constructor <;> simp [mandelbrot, julia_set]

/-- Claim C7: a rasterization call whose colormap name is not in the
registry fails with `UnknownColormap` (no default is substituted), and a
call with a recognized name succeeds with the requested colormap. -/
theorem c7_unknown_colormap_fails (registry : List String) (x y zoom : ℚ)
    (c : Option Qc) (iterations : ℕ) (cmap : String) (dpi : ℕ) :
    (cmap ∉ registry →
      plotter registry x y zoom c iterations cmap dpi = .error .unknownColormap) ∧
    (cmap ∈ registry →
      plotter registry x y zoom c iterations cmap dpi =
        .ok ⟨mandelbrot 512 512 x y zoom iterations, cmap, "png", "tight"⟩) := by
  constructor <;> intro h <;> simp [plotter, h]

/-- Witness for C7: "nope" is rejected, "cubehelix" is accepted, against the
singleton registry ["cubehelix"]. -/
theorem c7_witness :
    plotter ["cubehelix"] 0 0 1 none 1 "nope" 300 = .error .unknownColormap ∧
    plotter ["cubehelix"] 0 0 1 none 1 "cubehelix" 300 =
      .ok ⟨mandelbrot 512 512 0 0 1 1, "cubehelix", "png", "tight"⟩ :=
  ⟨(c7_unknown_colormap_fails ["cubehelix"] 0 0 1 none 1 "nope" 300).1 (by decide),
   (c7_unknown_colormap_fails ["cubehelix"] 0 0 1 none 1 "cubehelix" 300).2 (by decide)⟩

set_option maxRecDepth 4000 in
/-- Claim C8: every successful `plotter` call computes its divergence field
over a fixed 512×512 grid, whatever the caller supplied; the resolution is
not among `plotter`'s parameters. -/
theorem c8_plotter_fixed_resolution (registry : List String) (x y zoom : ℚ)
    (c : Option Qc) (iterations : ℕ) (cmap : String) (dpi : ℕ)
    (h : cmap ∈ registry) :
    plotter registry x y zoom c iterations cmap dpi =
      .ok ⟨mandelbrot 512 512 x y zoom iterations, cmap, "png", "tight"⟩ ∧
    (mandelbrot 512 512 x y zoom iterations).length = 512 ∧
    ∀ row ∈ mandelbrot 512 512 x y zoom iterations, row.length = 512 := by
  refine ⟨by simp [plotter, h], by simp only [mandelbrot, List.length_ofFn], ?_⟩
  intro row hrow
  simp only [mandelbrot, List.mem_ofFn] at hrow
  obtain ⟨r, rfl⟩ := hrow
  simp only [List.length_ofFn]

/-- Witness for C8 at a concrete successful call. -/
theorem c8_witness : (mandelbrot 512 512 0 0 1 1).length = 512 :=
  (c8_plotter_fixed_resolution ["cubehelix"] 0 0 1 none 1 "cubehelix" 300
    (by decide)).2.1

/-- Claim C9: the Julia constant `c` accepted by `plotter` has no effect:
two calls differing only in `c` return the same payload, and the field of
any successful call is the Mandelbrot field (julia_set is never used). -/
theorem c9_plotter_ignores_c (registry : List String) (x y zoom : ℚ)
    (c₁ c₂ : Option Qc) (iterations : ℕ) (cmap : String) (dpi : ℕ) :
    plotter registry x y zoom c₁ iterations cmap dpi =
      plotter registry x y zoom c₂ iterations cmap dpi ∧
    ∀ out, plotter registry x y zoom c₁ iterations cmap dpi = .ok out →
      out.field = mandelbrot 512 512 x y zoom iterations := by
  refine ⟨rfl, fun out h => ?_⟩
  rw [plotter_ok_out registry x y zoom c₁ iterations cmap dpi out h]

/-- Witness for C9: concrete calls differing only in `c` coincide, and the
payload field is the Mandelbrot field. -/
theorem c9_witness :
    plotter ["cubehelix"] 0 0 1 (some (1, 2)) 3 "cubehelix" 300 =
      plotter ["cubehelix"] 0 0 1 none 3 "cubehelix" 300 ∧
    SavefigInput.field ⟨mandelbrot 512 512 0 0 1 3, "cubehelix", "png", "tight"⟩ =
      mandelbrot 512 512 0 0 1 3 :=
  ⟨(c9_plotter_ignores_c ["cubehelix"] 0 0 1 (some (1, 2)) none 3 "cubehelix" 300).1,
   (c9_plotter_ignores_c ["cubehelix"] 0 0 1 (some (1, 2)) none 3 "cubehelix" 300).2
     ⟨mandelbrot 512 512 0 0 1 3, "cubehelix", "png", "tight"⟩ (by simp [plotter])⟩

/-- Claim C10: the `dpi` parameter accepted by `plotter` is never passed to
the figure-saving step: two calls differing only in `dpi` return the same
payload. -/
theorem c10_plotter_ignores_dpi (registry : List String) (x y zoom : ℚ)
    (c : Option Qc) (iterations : ℕ) (cmap : String) (dpi₁ dpi₂ : ℕ) :
    plotter registry x y zoom c iterations cmap dpi₁ =
      plotter registry x y zoom c iterations cmap dpi₂ := rfl

/-- Claim C1 (amended): under the Mandelbrot variant, a sample point whose
orbit never leaves the bounded region (magnitude > 2) within the iteration
budget — e.g. the point (0,0) — has divergence-field value 0, its
never-written initial value (not the maximum iteration count), for any
iteration budget. -/
theorem c1_mandelbrot_bounded_point_reports_zero (height width : ℕ)
    (x y zoom : ℚ) (n r j : ℕ)
    (hb : ∀ k, k ≤ n → absSq ((mandelbrotRun height width x y zoom k).z r j) ≤ 4) :
    (mandelbrotRun height width x y zoom n).divTime r j = 0 := by
  have key : ∀ k, k ≤ n → (mandelbrotRun height width x y zoom k).divTime r j = 0 := by
    intro k
    induction k with
    | zero => intro _; rfl
    | succ k ih =>
      intro hk
      have hcond : ¬ ((mandelbrotRun height width x y zoom k).m r j ∧
          4 < absSq ((mandelbrotStep (sampleGrid height width x y zoom) k
            (mandelbrotRun height width x y zoom k)).z r j)) := by
        rintro ⟨-, hgt⟩
        exact absurd hgt (not_lt.mpr (hb (k + 1) hk))
      rw [mandelbrotRun_succ, mandelbrotStep_divTime, if_neg hcond]
      exact ih (Nat.le_of_succ_le hk)
  exact key n le_rfl

/-- Witness for C1: the 1×1 grid centered at (3/2, 3/2) has (0,0) as its only
sample point; its orbit is constantly 0, and the reported value is 0. -/
theorem c1_witness :
    (∀ k, k ≤ 3 → absSq ((mandelbrotRun 1 1 (3 / 2) (3 / 2) 1 k).z 0 0) ≤ 4) ∧
    (mandelbrotRun 1 1 (3 / 2) (3 / 2) 1 3).divTime 0 0 = 0 := by
  have hc : sampleGrid 1 1 (3 / 2) (3 / 2) 1 0 0 = (0, 0) := by
    norm_num [sampleGrid, linspace, x_from, y_from, x_width, y_height]
  have hb : ∀ k, k ≤ 3 → absSq ((mandelbrotRun 1 1 (3 / 2) (3 / 2) 1 k).z 0 0) ≤ 4 := by
    intro k _
    rw [(mandelbrot_zero_cell 1 1 (3 / 2) (3 / 2) 1 0 0 hc k).1]
    norm_num [absSq]
  exact ⟨hb, c1_mandelbrot_bounded_point_reports_zero 1 1 (3 / 2) (3 / 2) 1 3 0 0 hb⟩

/-- Counterexample to C1 as stated: on the 1×1 grid whose only sample point
is (0,0) (which never diverges), with iteration budget 5, the Mandelbrot
divergence value is 0 — not the maximum iteration count 5. -/
theorem c1_counterexample :
    sampleGrid 1 1 (3 / 2) (3 / 2) 1 0 0 = (0, 0) ∧
    (mandelbrotRun 1 1 (3 / 2) (3 / 2) 1 5).divTime 0 0 = 0 ∧
    (mandelbrotRun 1 1 (3 / 2) (3 / 2) 1 5).divTime 0 0 ≠ (5 : ℤ) := by
  have hc : sampleGrid 1 1 (3 / 2) (3 / 2) 1 0 0 = (0, 0) := by
    norm_num [sampleGrid, linspace, x_from, y_from, x_width, y_height]
  have hd := (mandelbrot_zero_cell 1 1 (3 / 2) (3 / 2) 1 0 0 hc 5).2.1
  exact ⟨hc, hd, by rw [hd]; norm_num⟩

/-- Claim C2: (i) the Mandelbrot variant records a point's divergence time at
the iteration where it first exceeds magnitude 2 (via the newly-diverged
mask) and that value persists, unchanged, to the end of any longer run;
(ii) the Julia variant overwrites the record at iteration i for every point
still in the active mask after that iteration's deactivation; (iii) two
sample points that both first exceed magnitude 2 at iteration 1 are recorded
as smoothDiv 1 = 1 by the Mandelbrot variant but 0 by the Julia variant. -/
theorem c2_write_semantics :
    (∀ (height width : ℕ) (x y zoom : ℚ) (n i r j : ℕ), i < n →
      (mandelbrotRun height width x y zoom i).m r j = true →
      4 < absSq ((mandelbrotRun height width x y zoom (i + 1)).z r j) →
      (mandelbrotRun height width x y zoom n).divTime r j = smoothDiv i) ∧
    (∀ (c : Qc) (height width : ℕ) (x y zoom : ℚ) (i r j : ℕ),
      (juliaRun c height width x y zoom (i + 1)).m r j = true →
      (juliaRun c height width x y zoom (i + 1)).divTime r j = smoothDiv i) ∧
    ((mandelbrotRun 1 1 3 (3 / 2) 1 1).m 0 0 = true ∧
     4 < absSq ((mandelbrotRun 1 1 3 (3 / 2) 1 2).z 0 0) ∧
     (mandelbrotRun 1 1 3 (3 / 2) 1 3).divTime 0 0 = smoothDiv 1 ∧
     smoothDiv 1 = 1 ∧
     (juliaRun (0, 0) 1 1 (27 / 10) (3 / 2) 1 1).m 0 0 = true ∧
     4 < absSq ((juliaRun (0, 0) 1 1 (27 / 10) (3 / 2) 1 2).z 0 0) ∧
     (juliaRun (0, 0) 1 1 (27 / 10) (3 / 2) 1 3).divTime 0 0 = 0) := by
  refine ⟨?_, ?_, ?_, ?_, ?_, ?_, ?_, ?_, ?_⟩
  · intro height width x y zoom n i r j hin hm hdiv
    have hcond : ((mandelbrotRun height width x y zoom i).m r j ∧
        4 < absSq ((mandelbrotStep (sampleGrid height width x y zoom) i
          (mandelbrotRun height width x y zoom i)).z r j)) := ⟨hm, hdiv⟩
    have hstep : (mandelbrotRun height width x y zoom (i + 1)).divTime r j = smoothDiv i := by
      rw [mandelbrotRun_succ, mandelbrotStep_divTime, if_pos hcond]
    have hmf : (mandelbrotRun height width x y zoom (i + 1)).m r j = false := by
      rw [mandelbrotRun_succ, mandelbrotStep_m, if_pos hcond.2]
    exact ((mandelbrotRun_frozen height width x y zoom r j (i + 1) hmf n hin).1).trans hstep
  · intro c height width x y zoom i r j hm
    rw [juliaRun_succ] at hm ⊢
    rw [juliaStep_divTime, if_pos hm]
  · exact mandelbrot_demo.1
  · exact mandelbrot_demo.2.1
  · exact mandelbrot_demo.2.2
  · exact smoothDiv_one
  · exact julia_demo.1
  · exact julia_demo.2.1
  · exact julia_demo.2.2.2

/-- Witness for C2: the write-characterizations applied at the two concrete
diverging points (Mandelbrot c = 3/2 records smoothDiv 1; Julia z₀ = 6/5,
c = 0, still active after iteration 0, records smoothDiv 0 there). -/
theorem c2_witness :
    (mandelbrotRun 1 1 3 (3 / 2) 1 3).divTime 0 0 = smoothDiv 1 ∧
    (juliaRun (0, 0) 1 1 (27 / 10) (3 / 2) 1 1).divTime 0 0 = smoothDiv 0 :=
  ⟨c2_write_semantics.1 1 1 3 (3 / 2) 1 3 1 0 0 (by norm_num)
      mandelbrot_demo.1 mandelbrot_demo.2.1,
   c2_write_semantics.2.1 (0, 0) 1 1 (27 / 10) (3 / 2) 1 0 0 0 julia_demo.1⟩

/-- Claim C3: for positive height, width and max_iterations, both engines
return a field of exactly `height` rows and `width` columns whose every
entry lies in the closed interval [0, max_iterations]. -/
theorem c3_field_shape_and_range (height width max_iterations : ℕ)
    (x y zoom : ℚ) (c : Qc)
    (hh : 0 < height) (hw : 0 < width) (hmi : 0 < max_iterations) :
    (mandelbrot height width x y zoom max_iterations).length = height ∧
    (∀ row ∈ mandelbrot height width x y zoom max_iterations, row.length = width) ∧
    (∀ row ∈ mandelbrot height width x y zoom max_iterations, ∀ v ∈ row,
      0 ≤ v ∧ v ≤ (max_iterations : ℤ)) ∧
    (julia_set c height width x y zoom max_iterations).length = height ∧
    (∀ row ∈ julia_set c height width x y zoom max_iterations, row.length = width) ∧
    (∀ row ∈ julia_set c height width x y zoom max_iterations, ∀ v ∈ row,
      0 ≤ v ∧ v ≤ (max_iterations : ℤ)) := by
  refine ⟨by simp only [mandelbrot, List.length_ofFn], ?_, ?_,
    by simp only [julia_set, List.length_ofFn], ?_, ?_⟩
  · intro row hrow
    simp only [mandelbrot, List.mem_ofFn] at hrow
    obtain ⟨r, rfl⟩ := hrow
    simp only [List.length_ofFn]
  · intro row hrow v hv
    simp only [mandelbrot, List.mem_ofFn] at hrow
    obtain ⟨r, rfl⟩ := hrow
    simp only [List.mem_ofFn] at hv
    obtain ⟨j, rfl⟩ := hv
    exact mandelbrotRun_divTime_range height width x y zoom max_iterations r j
  · intro row hrow
    simp only [julia_set, List.mem_ofFn] at hrow
    obtain ⟨r, rfl⟩ := hrow
    simp only [List.length_ofFn]
  · intro row hrow v hv
    simp only [julia_set, List.mem_ofFn] at hrow
    obtain ⟨r, rfl⟩ := hrow
    simp only [List.mem_ofFn] at hv
    obtain ⟨j, rfl⟩ := hv
    exact juliaRun_divTime_range c height width x y zoom max_iterations r j

/-- Witness for C3 at height = width = max_iterations = 1. -/
theorem c3_witness : (mandelbrot 1 1 0 0 1 1).length = 1 :=
  (c3_field_shape_and_range 1 1 1 0 0 1 (0, 0) one_pos one_pos one_pos).1

/-- Claim C6: the smoothing formula evaluates to exactly i at iteration
index 0 (log2(1) = 0, max(1,0) = 1, log2(1) = 0), and a sample point far
outside the plane — here the 1×1 grid whose only sample is (10, 10) —
exceeds magnitude 2 on the very first iteration and is recorded with
divergence time 0, for any positive iteration budget. -/
theorem c6_smoothing_at_zero :
    smooth 0 = 0 ∧ smoothDiv 0 = 0 ∧
    sampleGrid 1 1 (23 / 2) (23 / 2) 1 0 0 = (10, 10) ∧
    ∀ n : ℕ, 0 < n →
      (mandelbrotRun 1 1 (23 / 2) (23 / 2) 1 1).m 0 0 = false ∧
      (mandelbrotRun 1 1 (23 / 2) (23 / 2) 1 n).divTime 0 0 = 0 := by
  have hc : sampleGrid 1 1 (23 / 2) (23 / 2) 1 0 0 = (10, 10) := by
    norm_num [sampleGrid, linspace, x_from, y_from, x_width, y_height]
  have hstep := mandelbrotRun_step_escape 1 1 (23 / 2) (23 / 2) 1 0 0 0 (0, 0) (10, 10)
    rfl rfl hc (by norm_num [absSq, sqAdd])
  have h1 : (mandelbrotRun 1 1 (23 / 2) (23 / 2) 1 1).m 0 0 = false := hstep.2.2
  have h2 : (mandelbrotRun 1 1 (23 / 2) (23 / 2) 1 1).divTime 0 0 = 0 :=
    hstep.2.1.trans smoothDiv_zero
  refine ⟨smooth_zero, smoothDiv_zero, hc, fun n hn => ⟨h1, ?_⟩⟩
  exact (mandelbrotRun_frozen 1 1 (23 / 2) (23 / 2) 1 0 0 1 h1 n hn).1.trans h2

/-- Witness for C6 at iteration budget 1. -/
theorem c6_witness :
    (mandelbrotRun 1 1 (23 / 2) (23 / 2) 1 1).m 0 0 = false ∧
    (mandelbrotRun 1 1 (23 / 2) (23 / 2) 1 1).divTime 0 0 = 0 :=
  c6_smoothing_at_zero.2.2.2 1 one_pos

end FractalMaker
